import Mathlib

/-!
Verification of the layered-scope session/artifact store.

This file gives a shallow embedding, in Lean 4, of the state-scope
resolver, the database-backed session store, the Vertex-backed session
service's append path, and the GCS-backed artifact version store of the
repository, and proves (or refutes) the specification claims about them.

Modelling conventions:
- Python `dict`s become association lists (`List (String × V)`); the
  observable content of a dict is its lookup function (`alookup`, first
  entry wins), and dict assignment / `|`-union place the winning entries
  at the front of the list.
- Timestamps (wall-clock microseconds) become `Nat`; each state-changing
  operation takes the commit time `now` as an explicit argument.
- Fallible operations return `Except` together with the resulting store;
  a raised Python exception corresponds to an `error` result and, since
  the enclosing transaction never commits, the store is returned
  unchanged.
- Bytes become `List Nat`.
-/

set_option maxHeartbeats 1000000

namespace AdkStore

/-- Python `str.startswith`, expressed on the character list of the string. -/
def strStartsWith (p s : String) : Bool := p.data.isPrefixOf s.data

/-- Python string slicing `s[n:]`, expressed on the character list. -/
def strDrop (s : String) (n : Nat) : String := String.mk (s.data.drop n)

/-- State dictionaries (Python `dict[str, Any]`) as association lists. -/
abbrev StateDict (V : Type) : Type := List (String × V)

/-- First-match association-list lookup: the effective mapping of a dict. -/
def alookup {K A : Type} [DecidableEq K] : List (K × A) → K → Option A
  | [], _ => none
  | (k, a) :: l, k' => if k' = k then some a else alookup l k'

/-- Python dict union `a | b` (keys of `b` win), at the level of the
effective mapping: entries of `b` shadow entries of `a`. -/
def pyUnion {K A : Type} (a b : List (K × A)) : List (K × A) := b ++ a

/-- Dict assignment `d[k] = a`: the new entry shadows older ones. -/
def aput {K A : Type} (l : List (K × A)) (k : K) (a : A) : List (K × A) :=
  (k, a) :: l

/-- Modelled from the spec: the reserved APP scope marker of the
StateScopeResolver (the `State` constants module is not among the
sources; the spec fixes only that scope classification is a reserved
string-prefix convention). -/
def appMark : String := "app:"

/-- Modelled from the spec: the reserved USER scope marker; the spec's
user-namespace examples use the marker string "user:". -/
def userMark : String := "user:"

/-- The three buckets produced by splitting a flat state delta. -/
structure SplitDelta (V : Type) where
  app : StateDict V
  user : StateDict V
  session : StateDict V

/-- Modelled from the spec: `split_delta(delta)` of the StateScopeResolver
(the `_session_util.extract_state_delta` helper is not among the sources).
Keys carrying the APP marker go to the app bucket with the marker
stripped, keys carrying the USER marker to the user bucket with the
marker stripped, and all remaining keys stay SESSION-scoped. -/
def extractStateDelta {V : Type} (delta : StateDict V) : SplitDelta V where
  app := delta.filterMap fun kv =>
    if strStartsWith appMark kv.1 then some (strDrop kv.1 4, kv.2) else none
  user := delta.filterMap fun kv =>
    if strStartsWith appMark kv.1 then none
    else if strStartsWith userMark kv.1 then some (strDrop kv.1 5, kv.2) else none
  session := delta.filter fun kv =>
    !(strStartsWith appMark kv.1) && !(strStartsWith userMark kv.1)

/-- Embedding of `_merge_state` (database_session_service.py, lines
692-699): copy the session state, then assign every app entry under its
APP-prefixed name and every user entry under its USER-prefixed name.
Later assignments shadow existing entries, so the injected entries stand
in front of the copied session state. -/
def mergeState {V : Type} (appState userState sessionState : StateDict V) : StateDict V :=
  (userState.map fun kv => (userMark ++ kv.1, kv.2)) ++
    ((appState.map fun kv => (appMark ++ kv.1, kv.2)) ++ sessionState)

/-! Data model of the database-backed session store. -/

instance {E A : Type} [DecidableEq E] [DecidableEq A] : DecidableEq (Except E A) :=
  fun x y =>
    match x, y with
    | .ok a, .ok b =>
      if h : a = b then .isTrue (h ▸ rfl) else .isFalse (fun hc => h (Except.ok.inj hc))
    | .ok _, .error _ => .isFalse (fun hc => Except.noConfusion hc)
    | .error _, .ok _ => .isFalse (fun hc => Except.noConfusion hc)
    | .error a, .error b =>
      if h : a = b then .isTrue (h ▸ rfl)
      else .isFalse (fun hc => h (Except.error.inj hc))

/-- Python truthiness of an `Optional[bool]` field. -/
def truthy : Option Bool → Bool
  | some true => true
  | _ => false

/-- The `EventActions` value object, restricted to the field the store
routes (`state_delta`). -/
structure EventActions (V : Type) where
  state_delta : StateDict V
  deriving DecidableEq

/-- The client-side `Event` value object, restricted to the fields the
session services read. -/
structure Event (V : Type) where
  id : String
  invocation_id : String
  author : String
  timestamp : Nat
  partialFlag : Option Bool
  actions : Option (EventActions V)
  deriving DecidableEq

/-- An `app_states` or `user_states` row: a state dict plus its
`update_time` column. -/
structure Bucket (V : Type) where
  state : StateDict V
  update_time : Nat
  deriving DecidableEq

/-- A `sessions` row. Its `update_time` column carries
`onupdate=func.now()`, so it advances exactly when the row itself is
written. -/
structure SessRow (V : Type) where
  state : StateDict V
  create_time : Nat
  update_time : Nat
  deriving DecidableEq

/-- An `events` row, keyed by (app_name, user_id, session_id, event id);
`timestamp` is the client event timestamp (`StorageEvent.from_event`),
not the commit time. -/
structure EventRow (V : Type) where
  app_name : String
  user_id : String
  session_id : String
  event_id : String
  timestamp : Nat
  data : Event V
  deriving DecidableEq

/-- The client-side `Session` object. -/
structure Session (V : Type) where
  app_name : String
  user_id : String
  id : String
  state : StateDict V
  events : List (Event V)
  last_update_time : Nat
  deriving DecidableEq

/-- The four tables of the relational schema. -/
structure DB (V : Type) where
  appStates : List (String × Bucket V)
  userStates : List ((String × String) × Bucket V)
  sessions : List ((String × String × String) × SessRow V)
  events : List (EventRow V)
  deriving DecidableEq

def emptyDB (V : Type) : DB V := ⟨[], [], [], []⟩

/-- Errors of the session service: `alreadyExists` is the
AlreadyExistsError of create_session, `staleWrite` the ValueError raised
at the stale `last_update_time` check of append_event, and
`noneAttribute` a Python AttributeError from an attribute access on
`None` (a missing row that the code uses without a presence check). -/
inductive SvcErr where
  | alreadyExists
  | staleWrite
  | noneAttribute
  deriving DecidableEq

/-- The flat state delta carried by an event, with the Python truthiness
of `event.actions and event.actions.state_delta` (absent or empty both
behave as no delta). -/
def eventDelta {V : Type} (e : Event V) : StateDict V :=
  match e.actions with
  | some a => a.state_delta
  | none => []

/-- One bucket step of append_event: `if delta: row.state = row.state | delta`.
When the delta is non-empty and the row was never created, the attribute
assignment on `None` raises; when the row is written, its `onupdate`
column advances to the commit time. -/
def applyBucketDelta {V : Type} (row : Option (Bucket V)) (delta : StateDict V)
    (now : Nat) : Except SvcErr (Option (Bucket V)) :=
  if delta.isEmpty then .ok row
  else
    match row with
    | none => .error .noneAttribute
    | some b => .ok (some ⟨pyUnion b.state delta, now⟩)

/-- Modelled from the spec: the in-memory append of the base session
service (`BaseSessionService.append_event` is not among the sources).
Per the spec, partial events are never persisted, and a committed append
mirrors the new state and the event into the caller's session object. -/
def baseAppendEvent {V : Type} (s : Session V) (e : Event V) : Session V :=
  if truthy e.partialFlag then s
  else { s with state := pyUnion s.state (eventDelta e), events := s.events ++ [e] }

/-- Embedding of `DatabaseSessionService.append_event`
(database_session_service.py, lines 632-689). Returns the Python result
(or the raised error) together with the database after the call; every
error is raised before the transaction commits, so the database comes
back unchanged in the error cases. The temp-delta trim step
(`_trim_temp_delta_state`, not among the sources) is modelled from the
spec, whose append step (b) routes the delta into the three scope
buckets with no further preprocessing, i.e. as the identity. -/
def appendEvent {V : Type} (db : DB V) (now : Nat) (s : Session V) (e : Event V) :
    Except SvcErr (Event V × Session V) × DB V :=
  if truthy e.partialFlag then (.ok (e, s), db)
  else
    match alookup db.sessions (s.app_name, s.user_id, s.id) with
    | none => (.error .noneAttribute, db)
    | some row =>
      if row.update_time > s.last_update_time then (.error .staleWrite, db)
      else
        let parts := extractStateDelta (eventDelta e)
        match applyBucketDelta (alookup db.appStates s.app_name) parts.app now with
        | .error er => (.error er, db)
        | .ok appRow =>
          match applyBucketDelta (alookup db.userStates (s.app_name, s.user_id))
              parts.user now with
          | .error er => (.error er, db)
          | .ok userRow =>
            let row' : SessRow V :=
              if parts.session.isEmpty then row
              else ⟨pyUnion row.state parts.session, row.create_time, now⟩
            let evRow : EventRow V :=
              ⟨s.app_name, s.user_id, s.id, e.id, e.timestamp, e⟩
            let db' : DB V :=
              { appStates :=
                  match appRow with
                  | some b =>
                    if parts.app.isEmpty then db.appStates
                    else aput db.appStates s.app_name b
                  | none => db.appStates
                userStates :=
                  match userRow with
                  | some b =>
                    if parts.user.isEmpty then db.userStates
                    else aput db.userStates (s.app_name, s.user_id) b
                  | none => db.userStates
                sessions :=
                  if parts.session.isEmpty then db.sessions
                  else aput db.sessions (s.app_name, s.user_id, s.id) row'
                events := db.events ++ [evRow] }
            let s' := baseAppendEvent { s with last_update_time := row'.update_time } e
            (.ok (e, s'), db')

/-- Embedding of `DatabaseSessionService.create_session` (lines 454-519).
`freshId` stands for the generated uuid used when no session id is
given. -/
def createSession {V : Type} (db : DB V) (now : Nat) (app_name user_id : String)
    (initState : StateDict V) (sessionId : Option String) (freshId : String) :
    Except SvcErr (Session V) × DB V :=
  let doCreate : String → Except SvcErr (Session V) × DB V := fun sid =>
    let appB := (alookup db.appStates app_name).getD ⟨[], now⟩
    let userB := (alookup db.userStates (app_name, user_id)).getD ⟨[], now⟩
    let parts := extractStateDelta initState
    let appB' := if parts.app.isEmpty then appB else ⟨pyUnion appB.state parts.app, now⟩
    let userB' :=
      if parts.user.isEmpty then userB else ⟨pyUnion userB.state parts.user, now⟩
    let row : SessRow V := ⟨parts.session, now, now⟩
    let db' : DB V :=
      { appStates := aput db.appStates app_name appB'
        userStates := aput db.userStates (app_name, user_id) userB'
        sessions := aput db.sessions (app_name, user_id, sid) row
        events := db.events }
    let merged := mergeState appB'.state userB'.state parts.session
    (.ok ⟨app_name, user_id, sid, merged, [], now⟩, db')
  match sessionId with
  | some sid =>
    if (alookup db.sessions (app_name, user_id, sid)).isSome then
      (.error .alreadyExists, db)
    else doCreate sid
  | none => doCreate freshId

/-- The `GetSessionConfig` filtering options. -/
structure GetSessionConfig where
  after_timestamp : Option Nat
  num_recent_events : Option Nat
  deriving DecidableEq

/-- The event-row predicate of the get_session query: the key columns
must match and, when `config and config.after_timestamp` is truthy
(Python: a present, non-zero value), `timestamp >= after_timestamp`. -/
def rowMatches {V : Type} (app_name user_id session_id : String)
    (cfg : Option GetSessionConfig) (r : EventRow V) : Bool :=
  decide (r.app_name = app_name) && decide (r.user_id = user_id) &&
    decide (r.session_id = session_id) &&
    (match cfg with
     | none => true
     | some c =>
       match c.after_timestamp with
       | none => true
       | some t => if t = 0 then true else decide (t ≤ r.timestamp))

/-- The query limit: `config.num_recent_events if config and
config.num_recent_events else None` (a zero limit is falsy and becomes
no limit). -/
def cfgLimit (cfg : Option GetSessionConfig) : Option Nat :=
  match cfg with
  | none => none
  | some c =>
    match c.num_recent_events with
    | none => none
    | some n => if n = 0 then none else some n

def takeLimit {α : Type} (n : Option Nat) (l : List α) : List α :=
  match n with
  | none => l
  | some n => l.take n

/-- The descending order of the query (`order_by(timestamp.desc())`). -/
def tsGE {V : Type} (a b : EventRow V) : Prop := b.timestamp ≤ a.timestamp

instance {V : Type} : DecidableRel (tsGE (V := V)) := fun a b =>
  inferInstanceAs (Decidable (b.timestamp ≤ a.timestamp))

instance {V : Type} : IsTotal (EventRow V) tsGE :=
  ⟨fun a b => (Nat.le_total b.timestamp a.timestamp).imp id id⟩

instance {V : Type} : IsTrans (EventRow V) tsGE :=
  ⟨fun _ _ _ hab hbc => Nat.le_trans hbc hab⟩

/-- `StorageEvent.to_event`, restricted to the modelled fields. -/
def toEvent {V : Type} (r : EventRow V) : Event V :=
  { r.data with id := r.event_id, timestamp := r.timestamp }

/-- Embedding of `DatabaseSessionService.get_session` (lines 521-576):
look up the session row (None when absent), query its event rows with
the optional timestamp filter, order them by timestamp descending, apply
the optional limit, reverse back to chronological order, and return the
session with its state merged from the three buckets. -/
def getSession {V : Type} (db : DB V) (app_name user_id session_id : String)
    (cfg : Option GetSessionConfig) : Option (Session V) :=
  match alookup db.sessions (app_name, user_id, session_id) with
  | none => none
  | some row =>
    let filtered := db.events.filter (rowMatches app_name user_id session_id cfg)
    let descending := List.insertionSort tsGE filtered
    let rows := (takeLimit (cfgLimit cfg) descending).reverse
    let appState := (alookup db.appStates app_name).elim [] Bucket.state
    let userState := (alookup db.userStates (app_name, user_id)).elim [] Bucket.state
    some
      { app_name := app_name
        user_id := user_id
        id := session_id
        state := mergeState appState userState row.state
        events := rows.map toEvent
        last_update_time := row.update_time }

/-- Embedding of `DatabaseSessionService.delete_session` (lines 619-630):
delete the session row; the events table carries an `ON DELETE CASCADE`
foreign key onto sessions, so the session's event rows go with it. -/
def deleteSession {V : Type} (db : DB V) (app_name user_id session_id : String) :
    DB V :=
  { appStates := db.appStates
    userStates := db.userStates
    sessions := db.sessions.filter fun kv =>
      !(decide (kv.1 = (app_name, user_id, session_id)))
    events := db.events.filter fun r =>
      !(decide (r.app_name = app_name) && decide (r.user_id = user_id) &&
        decide (r.session_id = session_id)) }

/-! The Vertex-backed session service's append path. -/

/-- One `agent_engines.sessions.events.append` call issued to the remote
Vertex Agent Engine API, restricted to the modelled payload fields. -/
structure ApiAppendCall (V : Type) where
  session_id : String
  author : String
  invocation_id : String
  timestamp : Nat
  partialFlag : Option Bool
  state_delta : StateDict V
  deriving DecidableEq

/-- Embedding of `VertexAiSessionService.append_event`
(vertex_ai_session_service.py, lines 261-320): update the in-memory
session through the base service, then unconditionally issue an
events.append call to the remote API carrying the event payload — the
partial flag travels inside `event_metadata`, and no branch skips the
call for partial events — and return the event. The remote calls are
modelled as a list of issued requests. -/
def vertexAppendEvent {V : Type} (calls : List (ApiAppendCall V)) (s : Session V)
    (e : Event V) : List (ApiAppendCall V) × Session V × Event V :=
  let s' := baseAppendEvent s e
  (calls ++ [⟨s.id, e.author, e.invocation_id, e.timestamp, e.partialFlag,
    eventDelta e⟩], s', e)

/-! The GCS-backed artifact version store. -/

/-- Errors of the artifact service: `invalidArgument` is the ValueError
for a missing session id on a session-scoped key, `notImplemented` the
NotImplementedError branches, `missingPayload` the ValueError for an
artifact with neither inline bytes nor text, and `gcsNotFound` the
storage NotFound raised by `download_as_bytes` on a missing blob. -/
inductive ArtErr where
  | invalidArgument
  | notImplemented
  | missingPayload
  | gcsNotFound
  deriving DecidableEq

structure InlineData where
  data : List Nat
  mime_type : Option String
  deriving DecidableEq

structure FileData where
  file_uri : String
  deriving DecidableEq

/-- `types.Part`, restricted to the three payload fields the service
branches on. Truthiness: a present `inline_data` or `file_data` object is
truthy; a present `text` is truthy only when non-empty. -/
structure Part where
  inline_data : Option InlineData
  text : Option String
  file_data : Option FileData
  deriving DecidableEq

structure Blob where
  data : List Nat
  content_type : Option String
  deriving DecidableEq

/-- A blob name `{a}/{b}/{c}/{d}/{version}` as its four leading
slash-separated segments plus the trailing version segment. Segments are
assumed not to contain the separator, under which this encoding of the
joined string is injective and the version-listing query by the prefix
`{a}/{b}/{c}/{d}/` matches exactly the names with equal leading
segments. -/
structure BlobName where
  path : List String
  version : Nat
  deriving DecidableEq

/-- The bucket contents: blob names mapped to blob payloads. -/
abbrev GcsStore : Type := List (BlobName × Blob)

/-- Embedding of `_file_has_user_namespace` (gcs_artifact_service.py,
line 139-149). -/
def fileHasUserNamespace (filename : String) : Bool :=
  strStartsWith "user:" filename

/-- Embedding of `_get_blob_name` (lines 151-178), up to the version
segment: `{app}/{user}/user/{filename}` for user-namespace files,
`{app}/{user}/{session}/{filename}` otherwise, and a ValueError when a
session-scoped file comes without a session id. -/
def getBlobPath (app_name user_id filename : String) (session_id : Option String) :
    Except ArtErr (List String) :=
  if fileHasUserNamespace filename then .ok [app_name, user_id, "user", filename]
  else
    match session_id with
    | none => .error .invalidArgument
    | some sid => .ok [app_name, user_id, sid, filename]

/-- The version numbers of the blobs under a path (the filter and the
final-segment parse of `_list_versions`). -/
def versionsOf (store : GcsStore) (p : List String) : List Nat :=
  (store.filter fun kv => decide (kv.1.path = p)).map fun kv => kv.1.version

/-- Embedding of `_list_versions` (lines 302-332): build the blob-name
prefix (which can raise the missing-session-id ValueError), list the
matching blobs and parse their version segments. -/
def listVersions (store : GcsStore) (app_name user_id : String)
    (session_id : Option String) (filename : String) : Except ArtErr (List Nat) :=
  match getBlobPath app_name user_id filename session_id with
  | .error er => .error er
  | .ok p => .ok (versionsOf store p)

/-- The bytes of a text payload (codepoints; the claims only inspect
emptiness, which the encoding preserves). -/
def strBytes (s : String) : List Nat := s.data.map Char.toNat

/-- Python `max` on a non-empty list of naturals. -/
def maxOf (l : List Nat) : Nat := l.foldl Nat.max 0

/-- Embedding of `_save_artifact` (lines 180-223): reject custom
metadata, list the existing versions, allocate `0` when none exist and
`max + 1` otherwise, then upload the payload — inline bytes with their
mime type, else non-empty text (content type defaults to text/plain),
else reject a `file_data` reference as not implemented, else reject the
payload-free artifact — and return the allocated version. Raised errors
leave the bucket unchanged. -/
def saveArtifact (store : GcsStore) (app_name user_id : String)
    (session_id : Option String) (filename : String) (artifact : Part)
    (hasCustomMetadata : Bool) : Except ArtErr Nat × GcsStore :=
  if hasCustomMetadata then (.error .notImplemented, store)
  else
    match listVersions store app_name user_id session_id filename with
    | .error er => (.error er, store)
    | .ok versions =>
      let version := if versions.isEmpty then 0 else maxOf versions + 1
      match getBlobPath app_name user_id filename session_id with
      | .error er => (.error er, store)
      | .ok p =>
        match artifact.inline_data with
        | some d => (.ok version, store ++ [(⟨p, version⟩, ⟨d.data, d.mime_type⟩)])
        | none =>
          match artifact.text with
          | some t =>
            if t = "" then
              match artifact.file_data with
              | some _ => (.error .notImplemented, store)
              | none => (.error .missingPayload, store)
            else (.ok version, store ++ [(⟨p, version⟩, ⟨strBytes t, some "text/plain"⟩)])
          | none =>
            match artifact.file_data with
            | some _ => (.error .notImplemented, store)
            | none => (.error .missingPayload, store)

/-- The download-and-wrap tail of `_load_artifact` (lines 244-255) at a
resolved version: a missing blob raises NotFound, empty downloaded bytes
come back as None, anything else becomes a `Part.from_bytes` part. -/
def loadAt (store : GcsStore) (app_name user_id : String)
    (session_id : Option String) (filename : String) (v : Nat) :
    Except ArtErr (Option Part) :=
  match getBlobPath app_name user_id filename session_id with
  | .error er => .error er
  | .ok p =>
    match alookup store ⟨p, v⟩ with
    | none => .error .gcsNotFound
    | some blob =>
      if blob.data.isEmpty then .ok none
      else .ok (some ⟨some ⟨blob.data, blob.content_type⟩, none, none⟩)

/-- Embedding of `_load_artifact` (lines 225-255): with `version=None`,
list the versions, return None when there are none and resolve to the
maximum otherwise; then download the blob at the resolved version. -/
def loadArtifact (store : GcsStore) (app_name user_id : String)
    (session_id : Option String) (filename : String) (versionOpt : Option Nat) :
    Except ArtErr (Option Part) :=
  match versionOpt with
  | none =>
    match listVersions store app_name user_id session_id filename with
    | .error er => .error er
    | .ok versions =>
      if versions.isEmpty then .ok none
      else loadAt store app_name user_id session_id filename (maxOf versions)
  | some v => loadAt store app_name user_id session_id filename v

/-- N sequential saves of the given payloads to one key. -/
def saveSeq (store : GcsStore) (app_name user_id : String)
    (session_id : Option String) (filename : String) : List Part → GcsStore
  | [] => store
  | art :: rest =>
    saveSeq (saveArtifact store app_name user_id session_id filename art false).2
      app_name user_id session_id filename rest

/-- The version `_save_artifact` allocates over a given existing blob
path: 0 when no versions exist, max + 1 otherwise. -/
def allocVersion (store : GcsStore) (p : List String) : Nat :=
  if (versionsOf store p).isEmpty then 0 else maxOf (versionsOf store p) + 1

/-! Concrete fixtures for the closed check instances (values over `Nat`). -/

/-- An inline-bytes artifact payload. -/
def partA : Part := ⟨some ⟨[1], some "text/plain"⟩, none, none⟩

/-- A reference-kind artifact payload: only `file_data` is present. -/
def filePart : Part := ⟨none, none, some ⟨"gs://bucket/object"⟩⟩

/-- A session snapshot as returned by the concrete create below. -/
def snapA : Session Nat := ⟨"a", "u", "s", [], [], 5⟩

/-- A non-partial event carrying no state delta. -/
def evNoDelta : Event Nat := ⟨"e1", "inv1", "agent", 6, none, none⟩

/-- A second non-partial event carrying no state delta. -/
def evB : Event Nat := ⟨"e2", "inv2", "agent", 7, none, none⟩

/-- A non-partial event carrying a session-scoped delta. -/
def evCounter : Event Nat := ⟨"e3", "inv3", "agent", 8, none, some ⟨[("counter", 1)]⟩⟩

/-- A streaming (partial=True) event carrying a state delta. -/
def evStreaming : Event Nat := ⟨"e0", "inv0", "agent", 9, some true, some ⟨[("x", 2)]⟩⟩

/-- The database after creating session ("a", "u", "s") at time 5. -/
def dbCreated : DB Nat :=
  (createSession (emptyDB Nat) 5 "a" "u" [] (some "s") "gen").2

/-- The created database with the session deleted again. -/
def dbDeleted : DB Nat := deleteSession dbCreated "a" "u" "s"

/-- The created database with one stored event row. -/
def dbWithEvent : DB Nat :=
  { dbCreated with events := [⟨"a", "u", "s", "e1", 6, evNoDelta⟩] }

/-! Theorems. -/

/-! Basic lemmas about lookups in association lists. -/

theorem alookup_append {K A : Type} [DecidableEq K] (x y : List (K × A)) (k : K) :
    alookup (x ++ y) k = (alookup x k).orElse (fun _ => alookup y k) := by
  induction x with
  | nil => simp [alookup]
  | cons kv l ih =>
    obtain ⟨k₀, a₀⟩ := kv
    by_cases h : k = k₀ <;> simp [alookup, h, ih]

theorem alookup_pyUnion {K A : Type} [DecidableEq K] (a b : List (K × A)) (k : K) :
    alookup (pyUnion a b) k = (alookup b k).orElse (fun _ => alookup a k) :=
  alookup_append b a k

theorem alookup_mem {K A : Type} [DecidableEq K] {l : List (K × A)} {k : K} {a : A}
    (h : alookup l k = some a) : (k, a) ∈ l := by
  induction l with
  | nil => simp [alookup] at h
  | cons kv l ih =>
    obtain ⟨k₀, a₀⟩ := kv
    by_cases hk : k = k₀
    · subst hk
      simp [alookup] at h
      simp [h]
    · simp [alookup, hk] at h
      exact List.mem_cons_of_mem _ (ih h)

theorem alookup_filter_ne {K A : Type} [DecidableEq K] (l : List (K × A)) (k : K) :
    alookup (l.filter fun kv => !(decide (kv.1 = k))) k = none := by
  induction l with
  | nil => simp [alookup]
  | cons kv l ih =>
    obtain ⟨k₀, a₀⟩ := kv
    by_cases h : k₀ = k
    · subst h
      simp only [List.filter, decide_True, Bool.not_true]
      exact ih
    · have hne : ¬(k = k₀) := fun hk => h hk.symm
      simp [List.filter, h, alookup, hne, ih]

/-! Lemmas about the scope markers as strings. -/

theorem data_append (a b : String) : (a ++ b).data = a.data ++ b.data := rfl

theorem strStartsWith_self_append (p s : String) :
    strStartsWith p (p ++ s) = true := by
  simp [strStartsWith, data_append, List.isPrefixOf_iff_prefix]

theorem strDrop_appMark_append (s : String) : strDrop (appMark ++ s) 4 = s := by
  cases s with
  | mk d => rfl

theorem strDrop_userMark_append (s : String) : strDrop (userMark ++ s) 5 = s := by
  cases s with
  | mk d => rfl

theorem not_userMark_startsWith_appMark (s : String) :
    strStartsWith userMark (appMark ++ s) = false := by
  cases s with
  | mk d => simp [strStartsWith, appMark, userMark, List.isPrefixOf]

theorem not_appMark_startsWith_userMark (s : String) :
    strStartsWith appMark (userMark ++ s) = false := by
  cases s with
  | mk d => simp [strStartsWith, appMark, userMark, List.isPrefixOf]

theorem strStartsWith_decomp {p k : String} (h : strStartsWith p k = true) :
    p ++ strDrop k p.length = k := by
  have hpre : p.data <+: k.data := by
    simpa [strStartsWith, List.isPrefixOf_iff_prefix] using h
  obtain ⟨t, ht⟩ := hpre
  cases p with
  | mk pd =>
    cases k with
    | mk kd =>
      simp only at ht
      subst ht
      have hlen : pd.length = String.length (String.mk pd) := rfl
      show String.mk (pd ++ (pd ++ t).drop (String.mk pd).length) = String.mk (pd ++ t)
      have : (pd ++ t).drop (String.mk pd).length = t := by
        have : (String.mk pd).length = pd.length := rfl
        rw [this, List.drop_append_of_le_length (Nat.le_refl _), List.drop_length,
          List.nil_append]
      rw [this]

theorem appMark_append_ne_userMark_append (a b : String) :
    appMark ++ a ≠ userMark ++ b := by
  intro h
  have : (appMark ++ a).data = (userMark ++ b).data := by rw [h]
  cases a with
  | mk ad =>
    cases b with
    | mk bd => simp [data_append, appMark, userMark] at this

theorem appMark_append_inj {a b : String} (h : appMark ++ a = appMark ++ b) : a = b := by
  have hd : (appMark ++ a).data = (appMark ++ b).data := by rw [h]
  cases a with
  | mk ad =>
    cases b with
    | mk bd =>
      simp [data_append, appMark] at hd
      simp [hd]

theorem userMark_append_inj {a b : String} (h : userMark ++ a = userMark ++ b) : a = b := by
  have hd : (userMark ++ a).data = (userMark ++ b).data := by rw [h]
  cases a with
  | mk ad =>
    cases b with
    | mk bd =>
      simp [data_append, userMark] at hd
      simp [hd]

theorem not_startsWith_both {k : String} (h : strStartsWith appMark k = true) :
    strStartsWith userMark k = false := by
  have hk := strStartsWith_decomp h
  rw [show appMark.length = 4 from rfl] at hk
  rw [← hk]
  exact not_userMark_startsWith_appMark _

/-! Lookup behaviour of the split and merge operations. -/

theorem extract_app_cons {V : Type} (k : String) (v : V) (d : StateDict V) :
    (extractStateDelta ((k, v) :: d)).app =
      if strStartsWith appMark k then (strDrop k 4, v) :: (extractStateDelta d).app
      else (extractStateDelta d).app := by
  by_cases h : strStartsWith appMark k = true <;>
    simp [extractStateDelta, List.filterMap_cons, h]

theorem extract_user_cons {V : Type} (k : String) (v : V) (d : StateDict V) :
    (extractStateDelta ((k, v) :: d)).user =
      if strStartsWith appMark k then (extractStateDelta d).user
      else if strStartsWith userMark k then (strDrop k 5, v) :: (extractStateDelta d).user
      else (extractStateDelta d).user := by
  by_cases ha : strStartsWith appMark k = true
  · simp [extractStateDelta, List.filterMap_cons, ha]
  · by_cases hu : strStartsWith userMark k = true <;>
      simp [extractStateDelta, List.filterMap_cons, ha, hu]

theorem extract_session_cons {V : Type} (k : String) (v : V) (d : StateDict V) :
    (extractStateDelta ((k, v) :: d)).session =
      if strStartsWith appMark k ∨ strStartsWith userMark k then
        (extractStateDelta d).session
      else (k, v) :: (extractStateDelta d).session := by
  by_cases ha : strStartsWith appMark k = true
  · simp [extractStateDelta, List.filter_cons, ha]
  · by_cases hu : strStartsWith userMark k = true <;>
      simp [extractStateDelta, List.filter_cons, ha, hu]

theorem alookup_extract_app {V : Type} (d : StateDict V) (r : String) :
    alookup (extractStateDelta d).app r = alookup d (appMark ++ r) := by
  induction d with
  | nil => rfl
  | cons kv d ih =>
    obtain ⟨k₀, v⟩ := kv
    rw [extract_app_cons]
    by_cases hk : strStartsWith appMark k₀ = true
    · have hdec : appMark ++ strDrop k₀ 4 = k₀ := by
        have := strStartsWith_decomp hk
        rwa [show appMark.length = 4 from rfl] at this
      by_cases hr : r = strDrop k₀ 4
      · subst hr
        simp [hk, alookup, hdec]
      · have hne : appMark ++ r ≠ k₀ := by
          intro he
          exact hr (appMark_append_inj (he.trans hdec.symm))
        simp [hk, alookup, hr, hne, ih]
    · have hne : appMark ++ r ≠ k₀ := by
        intro he
        rw [← he] at hk
        exact hk (strStartsWith_self_append _ _)
      simp [hk, alookup, hne, ih]

theorem alookup_extract_user {V : Type} (d : StateDict V) (r : String) :
    alookup (extractStateDelta d).user r = alookup d (userMark ++ r) := by
  induction d with
  | nil => rfl
  | cons kv d ih =>
    obtain ⟨k₀, v⟩ := kv
    rw [extract_user_cons]
    by_cases ha : strStartsWith appMark k₀ = true
    · have hne : userMark ++ r ≠ k₀ := by
        intro he
        rw [← he] at ha
        rw [not_appMark_startsWith_userMark r] at ha
        exact Bool.noConfusion ha
      simp [ha, alookup, hne, ih]
    · by_cases hu : strStartsWith userMark k₀ = true
      · have hdec : userMark ++ strDrop k₀ 5 = k₀ := by
          have := strStartsWith_decomp hu
          rwa [show userMark.length = 5 from rfl] at this
        by_cases hr : r = strDrop k₀ 5
        · subst hr
          simp [ha, hu, alookup, hdec]
        · have hne : userMark ++ r ≠ k₀ := by
            intro he
            exact hr (userMark_append_inj (he.trans hdec.symm))
          simp [ha, hu, alookup, hr, hne, ih]
      · have hne : userMark ++ r ≠ k₀ := by
          intro he
          rw [← he] at hu
          exact hu (strStartsWith_self_append _ _)
        simp [ha, hu, alookup, hne, ih]

theorem alookup_extract_session {V : Type} (d : StateDict V) (k : String)
    (ha : strStartsWith appMark k = false) (hu : strStartsWith userMark k = false) :
    alookup (extractStateDelta d).session k = alookup d k := by
  induction d with
  | nil => rfl
  | cons kv d ih =>
    obtain ⟨k₀, v⟩ := kv
    rw [extract_session_cons]
    by_cases hm : strStartsWith appMark k₀ = true ∨ strStartsWith userMark k₀ = true
    · have hne : k ≠ k₀ := by
        intro he
        subst he
        rcases hm with hm | hm
        · rw [ha] at hm
          exact Bool.noConfusion hm
        · rw [hu] at hm
          exact Bool.noConfusion hm
      simp [hm, alookup, hne, ih]
    · by_cases he : k = k₀
      · subst he
        simp [hm, alookup]
      · simp [hm, alookup, he, ih]

theorem alookup_extract_session_marked {V : Type} (d : StateDict V) (k : String)
    (h : strStartsWith appMark k = true ∨ strStartsWith userMark k = true) :
    alookup (extractStateDelta d).session k = none := by
  induction d with
  | nil => rfl
  | cons kv d ih =>
    obtain ⟨k₀, v⟩ := kv
    rw [extract_session_cons]
    by_cases hm : strStartsWith appMark k₀ = true ∨ strStartsWith userMark k₀ = true
    · simp [hm, ih]
    · have hne : k ≠ k₀ := by
        intro he
        subst he
        exact hm h
      simp [hm, alookup, hne, ih]

theorem extract_length {V : Type} (d : StateDict V) :
    (extractStateDelta d).app.length + (extractStateDelta d).user.length +
      (extractStateDelta d).session.length = d.length := by
  induction d with
  | nil => rfl
  | cons kv d ih =>
    obtain ⟨k₀, v⟩ := kv
    rw [extract_app_cons, extract_user_cons, extract_session_cons]
    by_cases ha : strStartsWith appMark k₀ = true
    · simp [ha]
      omega
    · by_cases hu : strStartsWith userMark k₀ = true
      · simp [ha, hu]
        omega
      · simp [ha, hu]
        omega

theorem alookup_map_appMark {V : Type} (l : StateDict V) (r : String) :
    alookup (l.map fun kv => (appMark ++ kv.1, kv.2)) (appMark ++ r) = alookup l r := by
  induction l with
  | nil => rfl
  | cons kv l ih =>
    obtain ⟨k₀, v⟩ := kv
    by_cases hr : r = k₀
    · subst hr
      simp [alookup]
    · have hne : appMark ++ r ≠ appMark ++ k₀ := fun he => hr (appMark_append_inj he)
      simp [alookup, hr, hne, ih]

theorem alookup_map_userMark {V : Type} (l : StateDict V) (r : String) :
    alookup (l.map fun kv => (userMark ++ kv.1, kv.2)) (userMark ++ r) = alookup l r := by
  induction l with
  | nil => rfl
  | cons kv l ih =>
    obtain ⟨k₀, v⟩ := kv
    by_cases hr : r = k₀
    · subst hr
      simp [alookup]
    · have hne : userMark ++ r ≠ userMark ++ k₀ := fun he => hr (userMark_append_inj he)
      simp [alookup, hr, hne, ih]

theorem alookup_map_mark_none {V : Type} (m : String) (l : StateDict V) (k : String)
    (h : ∀ a, k ≠ m ++ a) :
    alookup (l.map fun kv => (m ++ kv.1, kv.2)) k = none := by
  induction l with
  | nil => rfl
  | cons kv l ih =>
    obtain ⟨k₀, v⟩ := kv
    simp [alookup, h k₀, ih]

/-- Lookup characterisation of the merged state view: an APP-prefixed key
reads the app bucket first and falls back to the copied session state, a
USER-prefixed key reads the user bucket first, and an unprefixed key reads
the session state alone. -/
theorem alookup_mergeState_app {V : Type} (A U S : StateDict V) (r : String) :
    alookup (mergeState A U S) (appMark ++ r) =
      (alookup A r).orElse (fun _ => alookup S (appMark ++ r)) := by
  have hu : alookup (U.map fun kv => (userMark ++ kv.1, kv.2)) (appMark ++ r) = none :=
    alookup_map_mark_none _ _ _ (fun a => appMark_append_ne_userMark_append r a)
  simp [mergeState, alookup_append, hu, alookup_map_appMark]

theorem alookup_mergeState_user {V : Type} (A U S : StateDict V) (r : String) :
    alookup (mergeState A U S) (userMark ++ r) =
      (alookup U r).orElse (fun _ => alookup S (userMark ++ r)) := by
  have ha : alookup (A.map fun kv => (appMark ++ kv.1, kv.2)) (userMark ++ r) = none :=
    alookup_map_mark_none _ _ _
      (fun a he => appMark_append_ne_userMark_append a r he.symm)
  simp [mergeState, alookup_append, ha, alookup_map_userMark]

theorem alookup_mergeState_plain {V : Type} (A U S : StateDict V) (k : String)
    (ha : strStartsWith appMark k = false) (hu : strStartsWith userMark k = false) :
    alookup (mergeState A U S) k = alookup S k := by
  have hA : alookup (A.map fun kv => (appMark ++ kv.1, kv.2)) k = none := by
    refine alookup_map_mark_none _ _ _ (fun a he => ?_)
    rw [he, strStartsWith_self_append] at ha
    exact Bool.noConfusion ha
  have hU : alookup (U.map fun kv => (userMark ++ kv.1, kv.2)) k = none := by
    refine alookup_map_mark_none _ _ _ (fun a he => ?_)
    rw [he, strStartsWith_self_append] at hu
    exact Bool.noConfusion hu
  simp [mergeState, alookup_append, hA, hU]

/-- Round trip: merging the three buckets obtained by splitting a flat
delta reconstructs the effective mapping of the flat delta. -/
theorem alookup_merge_extract {V : Type} (d : StateDict V) (k : String) :
    alookup (mergeState (extractStateDelta d).app (extractStateDelta d).user
      (extractStateDelta d).session) k = alookup d k := by
  by_cases ha : strStartsWith appMark k = true
  · have hk := strStartsWith_decomp ha
    rw [show appMark.length = 4 from rfl] at hk
    rw [← hk, alookup_mergeState_app, alookup_extract_app,
      alookup_extract_session_marked _ _ (Or.inl (by rw [hk]; exact ha)), hk]
    cases alookup d k <;> rfl
  · by_cases hu : strStartsWith userMark k = true
    · have hk := strStartsWith_decomp hu
      rw [show userMark.length = 5 from rfl] at hk
      rw [← hk, alookup_mergeState_user, alookup_extract_user,
        alookup_extract_session_marked _ _ (Or.inr (by rw [hk]; exact hu)), hk]
      cases alookup d k <;> rfl
    · simp only [Bool.not_eq_true] at ha hu
      rw [alookup_mergeState_plain _ _ _ _ ha hu, alookup_extract_session _ _ ha hu]

/-! Lemmas about the artifact store. -/

theorem versionsOf_append_blob (store : GcsStore) (p : List String) (v : Nat) (b : Blob) :
    versionsOf (store ++ [(⟨p, v⟩, b)]) p = versionsOf store p ++ [v] := by
  simp [versionsOf, List.filter_append]

theorem maxOf_append (l : List Nat) (v : Nat) :
    maxOf (l ++ [v]) = Nat.max (maxOf l) v := by
  simp [maxOf, List.foldl_append]

theorem maxOf_range (n : Nat) : maxOf (List.range (n + 1)) = n := by
  induction n with
  | zero => rfl
  | succ m ih =>
    rw [List.range_succ, maxOf_append, ih]
    exact Nat.max_eq_right (Nat.le_succ m)

theorem allocVersion_range (store : GcsStore) (p : List String) (k : Nat)
    (h : versionsOf store p = List.range k) : allocVersion store p = k := by
  cases k with
  | zero => simp [allocVersion, h]
  | succ m =>
    have hne : (List.range (m + 1)).isEmpty = false := by
      simp [List.isEmpty_iff]
    simp [allocVersion, h, hne, maxOf_range]

theorem saveArtifact_inline (store : GcsStore) (a u : String) (sid : Option String)
    (f : String) (art : Part) (d : InlineData) (p : List String)
    (hp : getBlobPath a u f sid = .ok p) (hd : art.inline_data = some d) :
    saveArtifact store a u sid f art false =
      (.ok (allocVersion store p),
        store ++ [(⟨p, allocVersion store p⟩, ⟨d.data, d.mime_type⟩)]) := by
  simp [saveArtifact, listVersions, hp, hd, allocVersion]

theorem versionsOf_saveSeq_range (a u : String) (sid : Option String) (f : String)
    (p : List String) (hp : getBlobPath a u f sid = .ok p) :
    ∀ (arts : List Part) (store : GcsStore) (k : Nat),
      (∀ art ∈ arts, ∃ d, art.inline_data = some d) →
      versionsOf store p = List.range k →
      versionsOf (saveSeq store a u sid f arts) p = List.range (k + arts.length) := by
  intro arts
  induction arts with
  | nil =>
    intro store k _ hv
    simpa [saveSeq] using hv
  | cons art rest ih =>
    intro store k hall hv
    obtain ⟨d, hd⟩ := hall art (List.mem_cons_self _ _)
    have halloc : allocVersion store p = k := allocVersion_range store p k hv
    have hv' :
        versionsOf (store ++ [(⟨p, allocVersion store p⟩, Blob.mk d.data d.mime_type)])
          p = List.range (k + 1) := by
      rw [versionsOf_append_blob, hv, halloc, ← List.range_succ]
    have hrec := ih _ (k + 1)
      (fun b hb => hall b (List.mem_cons_of_mem _ hb)) hv'
    rw [saveSeq, saveArtifact_inline store a u sid f art d p hp hd]
    rw [hrec, List.length_cons]
    exact congrArg List.range (by omega)

/-- C3: the save path lists the existing versions and allocates 0 when
none exist and max + 1 otherwise, returning that number and storing the
blob at it; N sequential non-concurrent saves to one key from a
version-free store yield versions 0..N-1; and a load with version=None
returns NotFound (None) when no versions exist and otherwise reads the
content at the maximum existing version. -/
theorem c3_version_allocation :
    (∀ (store : GcsStore) (a u : String) (sid : Option String) (f : String)
        (art : Part) (d : InlineData) (p : List String),
      getBlobPath a u f sid = .ok p → art.inline_data = some d →
      saveArtifact store a u sid f art false =
        (.ok (allocVersion store p),
          store ++ [(⟨p, allocVersion store p⟩, ⟨d.data, d.mime_type⟩)]) ∧
      allocVersion store p =
        (if (versionsOf store p).isEmpty then 0 else maxOf (versionsOf store p) + 1)) ∧
    (∀ (store : GcsStore) (a u : String) (sid : Option String) (f : String)
        (arts : List Part) (p : List String),
      getBlobPath a u f sid = .ok p →
      (∀ art ∈ arts, ∃ d, art.inline_data = some d) →
      versionsOf store p = [] →
      versionsOf (saveSeq store a u sid f arts) p = List.range arts.length) ∧
    (∀ (store : GcsStore) (a u : String) (sid : Option String) (f : String)
        (p : List String),
      getBlobPath a u f sid = .ok p → versionsOf store p = [] →
      loadArtifact store a u sid f none = .ok none) ∧
    (∀ (store : GcsStore) (a u : String) (sid : Option String) (f : String)
        (p : List String),
      getBlobPath a u f sid = .ok p → versionsOf store p ≠ [] →
      loadArtifact store a u sid f none =
        loadAt store a u sid f (maxOf (versionsOf store p))) := by
  refine ⟨?_, ?_, ?_, ?_⟩
  · intro store a u sid f art d p hp hd
    exact ⟨saveArtifact_inline store a u sid f art d p hp hd, rfl⟩
  · intro store a u sid f arts p hp hall hv
    have h0 : versionsOf store p = List.range 0 := by rw [hv]; rfl
    have := versionsOf_saveSeq_range a u sid f p hp arts store 0 hall h0
    rwa [Nat.zero_add] at this
  · intro store a u sid f p hp hv
    simp [loadArtifact, listVersions, hp, hv]
  · intro store a u sid f p hp hv
    cases h : versionsOf store p with
    | nil => exact absurd h hv
    | cons x xs =>
      have hne : (versionsOf store p).isEmpty = false := by rw [h]; rfl
      simp [loadArtifact, listVersions, hp, hne]
      rw [h]

/-- Witness for C3 at a concrete key and payloads. -/
theorem c3_witness :
    saveArtifact [] "a" "u" (some "s") "f.txt" partA false =
      (.ok 0, [(⟨["a", "u", "s", "f.txt"], 0⟩, ⟨[1], some "text/plain"⟩)]) ∧
    versionsOf (saveSeq [] "a" "u" (some "s") "f.txt" [partA, partA, partA])
      ["a", "u", "s", "f.txt"] = [0, 1, 2] ∧
    loadArtifact [] "a" "u" (some "s") "f.txt" none = .ok none := by
  have h := c3_version_allocation
  refine ⟨?_, ?_, ?_⟩
  · have h1 := (h.1 [] "a" "u" (some "s") "f.txt" partA ⟨[1], some "text/plain"⟩
      ["a", "u", "s", "f.txt"] (by decide) rfl).1
    exact h1.trans (by decide)
  · have hm : ∀ art ∈ [partA, partA, partA], ∃ d, art.inline_data = some d := by
      intro art ha
      fin_cases ha <;> exact ⟨⟨[1], some "text/plain"⟩, rfl⟩
    have h2 := h.2.1 [] "a" "u" (some "s") "f.txt" [partA, partA, partA]
      ["a", "u", "s", "f.txt"] (by decide) hm rfl
    exact h2.trans (by decide)
  · exact h.2.2.1 [] "a" "u" (some "s") "f.txt" ["a", "u", "s", "f.txt"] (by decide) rfl

/-- C5: a save whose filename has no user-namespace marker and whose
session id is None fails with InvalidArgument — uniformly in the bucket
contents, which are neither read nor written (the error is raised while
building the blob-name prefix, before any storage request) — while a
save whose filename carries the "user:" marker accepts session id None
and succeeds. -/
theorem c5_scope_validation (store : GcsStore) (a u f g : String)
    (art1 art2 : Part) (d : InlineData)
    (hf : fileHasUserNamespace f = false)
    (hg : fileHasUserNamespace g = true)
    (hd : art2.inline_data = some d) :
    saveArtifact store a u none f art1 false = (.error .invalidArgument, store) ∧
    ∃ v, (saveArtifact store a u none g art2 false).1 = .ok v := by
  constructor
  · simp [saveArtifact, listVersions, getBlobPath, hf]
  · have hp : getBlobPath a u g none = .ok [a, u, "user", g] := by
      simp [getBlobPath, hg]
    exact ⟨_, by rw [saveArtifact_inline store a u none g art2 d _ hp hd]⟩

/-- Witness for C5 at the spec's scenario filenames. -/
theorem c5_witness :
    saveArtifact [] "a" "u" none "f.txt" partA false = (.error .invalidArgument, []) ∧
    ∃ v, (saveArtifact [] "a" "u" none "user:profile.json" partA false).1 = .ok v :=
  c5_scope_validation [] "a" "u" "f.txt" "user:profile.json" partA partA
    ⟨[1], some "text/plain"⟩ (by decide) (by decide) rfl

/-- C9 as stated is false: a save whose payload is the reference kind
(`file_data`) is not accepted — at this concrete input it raises
NotImplementedError instead of returning an allocated version. -/
theorem c9_counterexample :
    saveArtifact [] "a" "u" (some "s") "f.txt" filePart false =
      (.error .notImplemented, []) := by decide

/-- C9 (amended): a save whose payload is the reference kind (file_data,
with no inline bytes and no non-empty text) is rejected with
NotImplementedError, and the referenced content is not uploaded: the
bucket is returned unchanged. -/
theorem c9_file_data_not_uploaded (store : GcsStore) (a u : String)
    (sid : Option String) (f : String) (art : Part) (fd : FileData) (p : List String)
    (hp : getBlobPath a u f sid = .ok p)
    (hinl : art.inline_data = none)
    (htext : art.text = none ∨ art.text = some "")
    (hfd : art.file_data = some fd) :
    saveArtifact store a u sid f art false = (.error .notImplemented, store) := by
  rcases htext with ht | ht <;> simp [saveArtifact, listVersions, hp, hinl, ht, hfd]

/-- Witness for the amended C9 at a concrete reference payload. -/
theorem c9_witness :
    saveArtifact [] "a" "u" (some "s") "g.txt" filePart false =
      (.error .notImplemented, []) :=
  c9_file_data_not_uploaded [] "a" "u" (some "s") "g.txt" filePart
    ⟨"gs://bucket/object"⟩ ["a", "u", "s", "g.txt"] (by decide) rfl (Or.inl rfl) rfl

/-- C10: a stored version whose blob content is empty bytes loads as
None even though the version exists (it is listed by list_versions), so
a None result from load does not imply that no version exists. -/
theorem c10_empty_bytes_load_none (store : GcsStore) (a u : String)
    (sid : Option String) (f : String) (p : List String) (v : Nat) (blob : Blob)
    (hp : getBlobPath a u f sid = .ok p)
    (hblob : alookup store ⟨p, v⟩ = some blob)
    (hempty : blob.data = []) :
    loadArtifact store a u sid f (some v) = .ok none ∧
    ∃ vs, listVersions store a u sid f = .ok vs ∧ v ∈ vs := by
  constructor
  · simp [loadArtifact, loadAt, hp, hblob, hempty]
  · refine ⟨versionsOf store p, by simp [listVersions, hp], ?_⟩
    have hmem : ((⟨p, v⟩ : BlobName), blob) ∈ store := alookup_mem hblob
    exact List.mem_map.mpr ⟨(⟨p, v⟩, blob), List.mem_filter.mpr ⟨hmem, by simp⟩, rfl⟩

/-- Witness for C10: version 0 of the key exists with empty content. -/
theorem c10_witness :
    loadArtifact [(⟨["a", "u", "s", "f.txt"], 0⟩, ⟨[], none⟩)] "a" "u" (some "s")
      "f.txt" (some 0) = .ok none ∧
    ∃ vs, listVersions [(⟨["a", "u", "s", "f.txt"], 0⟩, ⟨[], none⟩)] "a" "u"
      (some "s") "f.txt" = .ok vs ∧ 0 ∈ vs :=
  c10_empty_bytes_load_none _ "a" "u" (some "s") "f.txt" ["a", "u", "s", "f.txt"]
    0 ⟨[], none⟩ (by decide) rfl rfl

/-- C4: the merged view equals a copy of the session state with every
app entry added under its APP-prefixed key name and every user entry
added under its USER-prefixed key name (as a characterisation of every
lookup, with the injected entries overriding session entries of the same
prefixed name and the session state answering all unprefixed keys), and
for all deltas, merging the three buckets obtained by splitting the
delta reconstructs the same effective mapping as the flat delta. -/
theorem c4_merge_split {V : Type} :
    (∀ (A U S : StateDict V) (r : String),
      alookup (mergeState A U S) (appMark ++ r) =
        (alookup A r).orElse (fun _ => alookup S (appMark ++ r))) ∧
    (∀ (A U S : StateDict V) (r : String),
      alookup (mergeState A U S) (userMark ++ r) =
        (alookup U r).orElse (fun _ => alookup S (userMark ++ r))) ∧
    (∀ (A U S : StateDict V) (k : String),
      strStartsWith appMark k = false → strStartsWith userMark k = false →
      alookup (mergeState A U S) k = alookup S k) ∧
    (∀ (d : StateDict V) (k : String),
      alookup (mergeState (extractStateDelta d).app (extractStateDelta d).user
        (extractStateDelta d).session) k = alookup d k) :=
  ⟨alookup_mergeState_app, alookup_mergeState_user, alookup_mergeState_plain,
    alookup_merge_extract⟩

/-- Witness for C4 at concrete states and a concrete delta. -/
theorem c4_witness :
    alookup (mergeState [("x", (1 : Nat))] [("y", 2)] [("z", 3)]) (appMark ++ "x") =
      some 1 ∧
    alookup (mergeState [("x", (1 : Nat))] [("y", 2)] [("z", 3)]) "z" = some 3 ∧
    alookup (mergeState (extractStateDelta [("app:x", (1 : Nat)), ("k", 7)]).app
      (extractStateDelta [("app:x", (1 : Nat)), ("k", 7)]).user
      (extractStateDelta [("app:x", (1 : Nat)), ("k", 7)]).session) "k" = some 7 := by
  have h := c4_merge_split (V := Nat)
  refine ⟨?_, ?_, ?_⟩
  · exact (h.1 [("x", 1)] [("y", 2)] [("z", 3)] "x").trans (by decide)
  · exact (h.2.2.1 [("x", 1)] [("y", 2)] [("z", 3)] "z" (by decide)
      (by decide)).trans (by decide)
  · exact (h.2.2.2 [("app:x", 1), ("k", 7)] "k").trans (by decide)

/-- C2 as stated is false for the Vertex-backed service named in its
sources: vertexAppendEvent issues the remote events.append call even for
a partial event — the event is transmitted for persistence, with
partial=True inside the call's metadata — so the append does not leave
the persisted store untouched. -/
theorem c2_counterexample :
    vertexAppendEvent [] snapA evStreaming =
      ([⟨"s", "agent", "inv0", 9, some true, [("x", 2)]⟩], snapA, evStreaming) := by
  decide

/-- C2 (amended): in the database-backed service an event with
partial=True is returned unchanged and nothing is persisted: the
database — its event log and all three state buckets, hence the
persisted event count — and the caller's session object come back
unchanged. -/
theorem c2_partial_not_persisted {V : Type} (db : DB V) (now : Nat) (s : Session V)
    (e : Event V) (h : truthy e.partialFlag = true) :
    appendEvent db now s e = (.ok (e, s), db) := by
  simp [appendEvent, h]

/-- Witness for the amended C2 at a concrete partial event. -/
theorem c2_witness :
    appendEvent dbCreated 6 snapA evStreaming =
      (.ok (evStreaming, snapA), dbCreated) :=
  c2_partial_not_persisted dbCreated 6 snapA evStreaming rfl

/-- C7: after delete_session removes the session, get_session reports it
gone (None), and a subsequent append_event does fail and persists
nothing — but it fails with the AttributeError of accessing
update_timestamp_tz on a None storage_session, not with the typed
NotFound the spec prescribes. -/
theorem c7_append_after_delete :
    getSession dbDeleted "a" "u" "s" none = none ∧
    appendEvent dbDeleted 6 snapA evB = (.error .noneAttribute, dbDeleted) := by
  decide

/-! Lemmas about append_event and get_session. -/

theorem isEmpty_eq_nil {α : Type} {l : List α} (h : l.isEmpty = true) : l = [] := by
  cases l with
  | nil => rfl
  | cons x xs => simp [List.isEmpty] at h

theorem alookup_aput_self {K A : Type} [DecidableEq K] (l : List (K × A)) (k : K)
    (a : A) : alookup (aput l k a) k = some a := by
  simp [aput, alookup]

theorem applyBucketDelta_some {V : Type} (b : Bucket V) (delta : StateDict V)
    (now : Nat) :
    applyBucketDelta (some b) delta now =
      .ok (some (if delta.isEmpty then b else ⟨pyUnion b.state delta, now⟩)) := by
  by_cases h : delta.isEmpty <;> simp [applyBucketDelta, h]

/-- Normal form of a committing append_event: the partial check is
passed, the session row exists, the freshness check passes, and both the
app and the user state rows exist. Each bucket is written exactly when
its part of the split delta is non-empty; the sessions row — and with it
the stored `update_time`, which feeds the caller's refreshed
`last_update_time` — is written exactly when the session part is
non-empty; the event row is always inserted. -/
theorem appendEvent_eq {V : Type} (db : DB V) (now : Nat) (s : Session V)
    (e : Event V) (row : SessRow V) (appB userB : Bucket V)
    (hpf : truthy e.partialFlag = false)
    (hrow : alookup db.sessions (s.app_name, s.user_id, s.id) = some row)
    (hfresh : ¬ row.update_time > s.last_update_time)
    (happ : alookup db.appStates s.app_name = some appB)
    (huser : alookup db.userStates (s.app_name, s.user_id) = some userB) :
    appendEvent db now s e =
      (.ok (e, baseAppendEvent { s with last_update_time :=
          if (extractStateDelta (eventDelta e)).session.isEmpty then row.update_time
          else now } e),
        { appStates :=
            if (extractStateDelta (eventDelta e)).app.isEmpty then db.appStates
            else aput db.appStates s.app_name
              ⟨pyUnion appB.state (extractStateDelta (eventDelta e)).app, now⟩
          userStates :=
            if (extractStateDelta (eventDelta e)).user.isEmpty then db.userStates
            else aput db.userStates (s.app_name, s.user_id)
              ⟨pyUnion userB.state (extractStateDelta (eventDelta e)).user, now⟩
          sessions :=
            if (extractStateDelta (eventDelta e)).session.isEmpty then db.sessions
            else aput db.sessions (s.app_name, s.user_id, s.id)
              ⟨pyUnion row.state (extractStateDelta (eventDelta e)).session,
                row.create_time, now⟩
          events := db.events ++ [⟨s.app_name, s.user_id, s.id, e.id, e.timestamp, e⟩] }) := by
  simp only [appendEvent, hpf, Bool.false_eq_true, if_false, hrow, happ, huser,
    applyBucketDelta_some]
  by_cases hA : (extractStateDelta (eventDelta e)).app.isEmpty <;>
    by_cases hU : (extractStateDelta (eventDelta e)).user.isEmpty <;>
      by_cases hS : (extractStateDelta (eventDelta e)).session.isEmpty <;>
        simp [hA, hU, hS, hfresh]

/-- A failing freshness check: the stored update_time is newer than the
caller's held value, so append_event raises the stale-session ValueError
and commits nothing. -/
theorem appendEvent_stale {V : Type} (db : DB V) (now : Nat) (s : Session V)
    (e : Event V) (row : SessRow V)
    (hpf : truthy e.partialFlag = false)
    (hrow : alookup db.sessions (s.app_name, s.user_id, s.id) = some row)
    (hstale : row.update_time > s.last_update_time) :
    appendEvent db now s e = (.error .staleWrite, db) := by
  simp [appendEvent, hpf, hrow, hstale]

/-- A committing append returns an ok result. -/
theorem appendEvent_ok_exists {V : Type} (db : DB V) (now : Nat) (s : Session V)
    (e : Event V) (row : SessRow V) (appB userB : Bucket V)
    (hpf : truthy e.partialFlag = false)
    (hrow : alookup db.sessions (s.app_name, s.user_id, s.id) = some row)
    (hfresh : ¬ row.update_time > s.last_update_time)
    (happ : alookup db.appStates s.app_name = some appB)
    (huser : alookup db.userStates (s.app_name, s.user_id) = some userB) :
    ∃ r, (appendEvent db now s e).1 = .ok r :=
  ⟨_, by rw [appendEvent_eq db now s e row appB userB hpf hrow hfresh happ huser]⟩

/-- Normal form of get_session on an existing session row. -/
theorem getSession_some {V : Type} (db : DB V) (a u sid : String)
    (cfg : Option GetSessionConfig) (row : SessRow V)
    (h : alookup db.sessions (a, u, sid) = some row) :
    getSession db a u sid cfg = some
      { app_name := a
        user_id := u
        id := sid
        state := mergeState ((alookup db.appStates a).elim [] Bucket.state)
          ((alookup db.userStates (a, u)).elim [] Bucket.state) row.state
        events := ((takeLimit (cfgLimit cfg) (List.insertionSort tsGE
          (db.events.filter (rowMatches a u sid cfg)))).reverse).map toEvent
        last_update_time := row.update_time } := by
  simp [getSession, h]

/-- C1 as stated is false when caller A's event carries no session-scoped
state delta: the sessions row is then not written at all — its
update_time column, which advances only `onupdate` — keeps the creation
time, so caller B's later append with the shared (now stale) snapshot
succeeds instead of failing StaleWrite. Here A appends at commit time 6
and B at commit time 7 with the snapshot both callers took at time 5. -/
theorem c1_counterexample :
    (appendEvent dbCreated 6 snapA evNoDelta).1 =
      .ok (evNoDelta, ⟨"a", "u", "s", [], [evNoDelta], 5⟩) ∧
    (appendEvent (appendEvent dbCreated 6 snapA evNoDelta).2 7 snapA evB).1 =
      .ok (evB, ⟨"a", "u", "s", [], [evB], 5⟩) := by
  decide

/-- C1 (amended): append_event re-reads the stored last_update_time and,
when it is newer than the caller's held value, fails with the StaleWrite
error and persists nothing; and when two callers hold the same fresh
session snapshot and caller A first commits — at a strictly later
wall-clock instant — an event carrying a session-scoped state delta
(only then is the sessions row written and its onupdate timestamp
advanced), caller B's append with the shared snapshot fails StaleWrite
and leaves the store unchanged, and after B reloads the session, B's
append succeeds. -/
theorem c1_optimistic_concurrency {V : Type} :
    (∀ (db : DB V) (now : Nat) (s : Session V) (e : Event V) (row : SessRow V),
      truthy e.partialFlag = false →
      alookup db.sessions (s.app_name, s.user_id, s.id) = some row →
      row.update_time > s.last_update_time →
      appendEvent db now s e = (.error .staleWrite, db)) ∧
    (∀ (db : DB V) (s : Session V) (eA eB : Event V) (row : SessRow V)
        (appB userB : Bucket V) (t1 t2 : Nat),
      truthy eA.partialFlag = false → truthy eB.partialFlag = false →
      alookup db.sessions (s.app_name, s.user_id, s.id) = some row →
      alookup db.appStates s.app_name = some appB →
      alookup db.userStates (s.app_name, s.user_id) = some userB →
      s.last_update_time = row.update_time →
      (extractStateDelta (eventDelta eA)).session.isEmpty = false →
      t1 > s.last_update_time →
      (appendEvent db t1 s eA).1 =
        .ok (eA, baseAppendEvent { s with last_update_time := t1 } eA) ∧
      appendEvent (appendEvent db t1 s eA).2 t2 s eB =
        (.error .staleWrite, (appendEvent db t1 s eA).2) ∧
      ∃ sB, getSession (appendEvent db t1 s eA).2 s.app_name s.user_id s.id none =
          some sB ∧
        ∃ r, (appendEvent (appendEvent db t1 s eA).2 t2 sB eB).1 = .ok r) := by
  constructor
  · intro db now s e row hp hrow hstale
    exact appendEvent_stale db now s e row hp hrow hstale
  · intro db s eA eB row appB userB t1 t2 hpA hpB hrow happ huser hlast hsd ht1
    have hfreshA : ¬ row.update_time > s.last_update_time := by
      rw [hlast]
      exact Nat.lt_irrefl _
    have hEq := appendEvent_eq db t1 s eA row appB userB hpA hrow hfreshA happ huser
    have h1 : (appendEvent db t1 s eA).1 =
        .ok (eA, baseAppendEvent { s with last_update_time := t1 } eA) := by
      rw [hEq]
      simp [hsd]
    have h2 : (appendEvent db t1 s eA).2.sessions =
        aput db.sessions (s.app_name, s.user_id, s.id)
          ⟨pyUnion row.state (extractStateDelta (eventDelta eA)).session,
            row.create_time, t1⟩ := by
      rw [hEq]
      simp [hsd]
    have hrowA : alookup (appendEvent db t1 s eA).2.sessions
        (s.app_name, s.user_id, s.id) =
        some ⟨pyUnion row.state (extractStateDelta (eventDelta eA)).session,
          row.create_time, t1⟩ := by
      rw [h2]
      exact alookup_aput_self _ _ _
    have h3 := appendEvent_stale (appendEvent db t1 s eA).2 t2 s eB _ hpB hrowA ht1
    have happA : ∃ b, alookup (appendEvent db t1 s eA).2.appStates s.app_name =
        some b := by
      rw [hEq]
      by_cases hA : (extractStateDelta (eventDelta eA)).app.isEmpty
      · exact ⟨appB, by simp [hA, happ]⟩
      · exact ⟨⟨pyUnion appB.state (extractStateDelta (eventDelta eA)).app, t1⟩,
          by simp [hA, alookup_aput_self]⟩
    have huserA : ∃ b, alookup (appendEvent db t1 s eA).2.userStates
        (s.app_name, s.user_id) = some b := by
      rw [hEq]
      by_cases hU : (extractStateDelta (eventDelta eA)).user.isEmpty
      · exact ⟨userB, by simp [hU, huser]⟩
      · exact ⟨⟨pyUnion userB.state (extractStateDelta (eventDelta eA)).user, t1⟩,
          by simp [hU, alookup_aput_self]⟩
    obtain ⟨bA, hbA⟩ := happA
    obtain ⟨bU, hbU⟩ := huserA
    have hget := getSession_some (appendEvent db t1 s eA).2 s.app_name s.user_id
      s.id none _ hrowA
    refine ⟨h1, h3, ⟨_, hget, ?_⟩⟩
    exact appendEvent_ok_exists _ t2 _ eB _ bA bU hpB hrowA (Nat.lt_irrefl _) hbA hbU

/-- Witness for C1: a concrete stale append fails, and the concrete
two-caller scenario with a session-scoped delta behaves as amended. -/
theorem c1_witness :
    appendEvent dbCreated 6 ⟨"a", "u", "s", [], [], 4⟩ evB =
      (.error .staleWrite, dbCreated) ∧
    ((appendEvent dbCreated 6 snapA evCounter).1 =
      .ok (evCounter, baseAppendEvent { snapA with last_update_time := 6 } evCounter) ∧
    appendEvent (appendEvent dbCreated 6 snapA evCounter).2 7 snapA evB =
      (.error .staleWrite, (appendEvent dbCreated 6 snapA evCounter).2) ∧
    ∃ sB, getSession (appendEvent dbCreated 6 snapA evCounter).2 snapA.app_name
        snapA.user_id snapA.id none = some sB ∧
      ∃ r, (appendEvent (appendEvent dbCreated 6 snapA evCounter).2 7 sB evB).1 =
        .ok r) := by
  constructor
  · exact (c1_optimistic_concurrency (V := Nat)).1 dbCreated 6 ⟨"a", "u", "s", [], [], 4⟩
      evB ⟨[], 5, 5⟩ rfl (by decide) (by decide)
  · exact (c1_optimistic_concurrency (V := Nat)).2 dbCreated snapA evCounter evB
      ⟨[], 5, 5⟩ ⟨[], 5⟩ ⟨[], 5⟩ 6 7 rfl rfl (by decide) (by decide) (by decide) rfl
      (by decide) (by decide)

/-- C8: splitting a delta routes every key into exactly one of the three
buckets — the buckets' joint size equals the delta's size, the app
bucket answers exactly the APP-prefixed keys (marker stripped), the user
bucket exactly the USER-prefixed keys, and the session bucket exactly
the unprefixed keys — and a committing append_event persists each part
into its own stored bucket by dict-union, inserting the event row. -/
theorem c8_delta_routing {V : Type} :
    (∀ d : StateDict V,
      (extractStateDelta d).app.length + (extractStateDelta d).user.length +
        (extractStateDelta d).session.length = d.length) ∧
    (∀ (d : StateDict V) (r : String),
      alookup (extractStateDelta d).app r = alookup d (appMark ++ r)) ∧
    (∀ (d : StateDict V) (r : String),
      alookup (extractStateDelta d).user r = alookup d (userMark ++ r)) ∧
    (∀ (d : StateDict V) (k : String),
      strStartsWith appMark k = false → strStartsWith userMark k = false →
      alookup (extractStateDelta d).session k = alookup d k) ∧
    (∀ (d : StateDict V) (k : String),
      strStartsWith appMark k = true ∨ strStartsWith userMark k = true →
      alookup (extractStateDelta d).session k = none) ∧
    (∀ (db : DB V) (now : Nat) (s : Session V) (e : Event V) (row : SessRow V)
        (appB userB : Bucket V),
      truthy e.partialFlag = false →
      alookup db.sessions (s.app_name, s.user_id, s.id) = some row →
      ¬ row.update_time > s.last_update_time →
      alookup db.appStates s.app_name = some appB →
      alookup db.userStates (s.app_name, s.user_id) = some userB →
      (alookup (appendEvent db now s e).2.appStates s.app_name).map Bucket.state =
        some (pyUnion appB.state (extractStateDelta (eventDelta e)).app) ∧
      (alookup (appendEvent db now s e).2.userStates (s.app_name, s.user_id)).map
        Bucket.state =
        some (pyUnion userB.state (extractStateDelta (eventDelta e)).user) ∧
      (alookup (appendEvent db now s e).2.sessions (s.app_name, s.user_id, s.id)).map
        SessRow.state =
        some (pyUnion row.state (extractStateDelta (eventDelta e)).session) ∧
      (appendEvent db now s e).2.events =
        db.events ++ [⟨s.app_name, s.user_id, s.id, e.id, e.timestamp, e⟩]) := by
  refine ⟨extract_length, alookup_extract_app, alookup_extract_user,
    alookup_extract_session, alookup_extract_session_marked, ?_⟩
  intro db now s e row appB userB hp hrow hfresh happ huser
  rw [appendEvent_eq db now s e row appB userB hp hrow hfresh happ huser]
  refine ⟨?_, ?_, ?_, rfl⟩
  · by_cases hA : (extractStateDelta (eventDelta e)).app.isEmpty
    · simp [hA, happ, pyUnion, isEmpty_eq_nil hA]
    · simp [hA, alookup_aput_self]
  · by_cases hU : (extractStateDelta (eventDelta e)).user.isEmpty
    · simp [hU, huser, pyUnion, isEmpty_eq_nil hU]
    · simp [hU, alookup_aput_self]
  · by_cases hS : (extractStateDelta (eventDelta e)).session.isEmpty
    · simp [hS, hrow, pyUnion, isEmpty_eq_nil hS]
    · simp [hS, alookup_aput_self]

/-- C6 as stated is false at a zero limit: `num_recent_events = 0` is
given but falsy in Python, so the query applies no limit — on a store
holding one event, get_session returns one event where truncation to the
last 0 events would return none. -/
theorem c6_counterexample :
    (getSession dbWithEvent "a" "u" "s"
        (some ⟨none, some 0⟩)).map (fun s => s.events.length) = some 1 := by
  decide

/-- C6 (amended): get_session returns NotFound (None) exactly when the
session row does not exist; otherwise it returns the session with state
merged from the app, user and session buckets and last_update_time read
from the row, and with the event list drawn from the session's stored
rows matching the query filter (in particular timestamp >=
after_timestamp whenever one is given), truncated to the last
num_recent_events when a non-zero limit is given (a zero limit is falsy
and means no limit), and always in chronological (timestamp) order.
The final conjunct pins the truncation down: the matching rows are a
permutation of the returned events plus the omitted ones, every omitted
event is no newer than every returned event (so the returned events are
the most recent ones), and nothing is omitted when no limit applies, so
the unlimited query returns all matching events. -/
theorem c6_get_session {V : Type} :
    (∀ (db : DB V) (a u sid : String) (cfg : Option GetSessionConfig),
      getSession db a u sid cfg = none ↔ alookup db.sessions (a, u, sid) = none) ∧
    (∀ (db : DB V) (a u sid : String) (cfg : Option GetSessionConfig) (s : Session V),
      getSession db a u sid cfg = some s →
      (∃ row, alookup db.sessions (a, u, sid) = some row ∧
        s.state = mergeState ((alookup db.appStates a).elim [] Bucket.state)
          ((alookup db.userStates (a, u)).elim [] Bucket.state) row.state ∧
        s.last_update_time = row.update_time) ∧
      List.Pairwise (fun x y => x.timestamp ≤ y.timestamp) s.events ∧
      (∀ ev ∈ s.events, ∃ r, r ∈ db.events ∧
        rowMatches a u sid cfg r = true ∧ ev = toEvent r) ∧
      (∀ ev ∈ s.events, ∀ (c : GetSessionConfig) (t : Nat),
        cfg = some c → c.after_timestamp = some t → t ≤ ev.timestamp) ∧
      s.events.length =
        (match cfgLimit cfg with
         | none => (db.events.filter (rowMatches a u sid cfg)).length
         | some n => min n (db.events.filter (rowMatches a u sid cfg)).length) ∧
      ∃ rest : List (Event V),
        List.Perm ((db.events.filter (rowMatches a u sid cfg)).map toEvent)
          (s.events ++ rest) ∧
        (∀ ev ∈ s.events, ∀ omitted ∈ rest, omitted.timestamp ≤ ev.timestamp) ∧
        (cfgLimit cfg = none → rest = [])) := by
  constructor
  · intro db a u sid cfg
    constructor
    · intro h
      cases halook : alookup db.sessions (a, u, sid) with
      | none => rfl
      | some row =>
        rw [getSession_some db a u sid cfg row halook] at h
        exact Option.noConfusion h
    · intro h
      simp [getSession, h]
  · intro db a u sid cfg s h
    cases halook : alookup db.sessions (a, u, sid) with
    | none => simp [getSession, halook] at h
    | some row =>
      rw [getSession_some db a u sid cfg row halook] at h
      have hs := Option.some.inj h
      subst hs
      have hsorted : List.Pairwise tsGE
          (List.insertionSort tsGE (db.events.filter (rowMatches a u sid cfg))) :=
        List.sorted_insertionSort tsGE _
      have htake : List.Pairwise tsGE (takeLimit (cfgLimit cfg)
          (List.insertionSort tsGE (db.events.filter (rowMatches a u sid cfg)))) := by
        cases cfgLimit cfg with
        | none => exact hsorted
        | some n => exact hsorted.sublist (List.take_sublist n _)
      have hrev : List.Pairwise (fun x y : EventRow V => x.timestamp ≤ y.timestamp)
          ((takeLimit (cfgLimit cfg) (List.insertionSort tsGE
            (db.events.filter (rowMatches a u sid cfg)))).reverse) :=
        List.pairwise_reverse.mpr htake
      have hprov : ∀ r ∈ (takeLimit (cfgLimit cfg) (List.insertionSort tsGE
          (db.events.filter (rowMatches a u sid cfg)))).reverse,
          r ∈ db.events ∧ rowMatches a u sid cfg r = true := by
        intro r hr
        rw [List.mem_reverse] at hr
        have hr2 : r ∈ List.insertionSort tsGE
            (db.events.filter (rowMatches a u sid cfg)) := by
          cases hcl : cfgLimit cfg with
          | none =>
            rw [hcl] at hr
            exact hr
          | some n =>
            rw [hcl] at hr
            exact List.take_subset n _ hr
        rw [List.mem_insertionSort] at hr2
        exact ⟨List.mem_of_mem_filter hr2, List.of_mem_filter hr2⟩
      refine ⟨⟨row, rfl, rfl, rfl⟩, ?_, ?_, ?_, ?_, ?_⟩
      · exact List.pairwise_map.mpr hrev
      · intro ev hev
        obtain ⟨r, hr, hre⟩ := List.mem_map.mp hev
        exact ⟨r, (hprov r hr).1, (hprov r hr).2, hre.symm⟩
      · intro ev hev c t hc ht
        obtain ⟨r, hr, hre⟩ := List.mem_map.mp hev
        have hm := (hprov r hr).2
        subst hc
        rw [rowMatches, ht] at hm
        simp only [Bool.and_eq_true] at hm
        have hm2 := hm.2
        by_cases ht0 : t = 0
        · subst ht0
          exact Nat.zero_le _
        · rw [if_neg ht0] at hm2
          have : t ≤ r.timestamp := of_decide_eq_true hm2
          rw [← hre]
          exact this
      · show ((takeLimit (cfgLimit cfg) (List.insertionSort tsGE
          (db.events.filter (rowMatches a u sid cfg)))).reverse.map toEvent).length = _
        rw [List.length_map, List.length_reverse]
        have hlen : (List.insertionSort tsGE
            (db.events.filter (rowMatches a u sid cfg))).length =
            (db.events.filter (rowMatches a u sid cfg)).length :=
          (List.perm_insertionSort tsGE _).length_eq
        cases cfgLimit cfg with
        | none => exact hlen
        | some n =>
          show (List.take n _).length = _
          rw [List.length_take, hlen]
      · cases hcl : cfgLimit cfg with
        | none =>
          refine ⟨[], ?_, ?_, fun _ => rfl⟩
          · show List.Perm _ ((takeLimit none (List.insertionSort tsGE
              (db.events.filter (rowMatches a u sid cfg)))).reverse.map toEvent ++ [])
            rw [List.append_nil]
            exact (((List.reverse_perm _).map toEvent).trans
              ((List.perm_insertionSort tsGE _).map toEvent)).symm
          · intro ev _ omitted hom
            exact absurd hom (List.not_mem_nil _)
        | some n =>
          refine ⟨((List.insertionSort tsGE
            (db.events.filter (rowMatches a u sid cfg))).drop n).map toEvent,
            ?_, ?_, ?_⟩
          · have h1 : List.Perm
                ((db.events.filter (rowMatches a u sid cfg)).map toEvent)
                ((List.insertionSort tsGE
                  (db.events.filter (rowMatches a u sid cfg))).map toEvent) :=
              ((List.perm_insertionSort tsGE _).map toEvent).symm
            have hsplit : (List.insertionSort tsGE
                (db.events.filter (rowMatches a u sid cfg))).map toEvent =
                ((List.insertionSort tsGE
                  (db.events.filter (rowMatches a u sid cfg))).take n).map toEvent ++
                ((List.insertionSort tsGE
                  (db.events.filter (rowMatches a u sid cfg))).drop n).map toEvent := by
              rw [← List.map_append, List.take_append_drop]
            rw [hsplit] at h1
            have h2 : List.Perm
                (((List.insertionSort tsGE
                  (db.events.filter (rowMatches a u sid cfg))).take n).map toEvent)
                ((((List.insertionSort tsGE
                  (db.events.filter (rowMatches a u sid cfg))).take n).reverse).map
                  toEvent) :=
              ((List.reverse_perm _).map toEvent).symm
            exact h1.trans (h2.append_right _)
          · intro ev hev omitted hom
            obtain ⟨q, hq, hqe⟩ := List.mem_map.mp hom
            obtain ⟨r, hr, hre⟩ := List.mem_map.mp hev
            rw [List.mem_reverse] at hr
            have hcross := (List.pairwise_append.mp
              (by rw [List.take_append_drop n (List.insertionSort tsGE
                (db.events.filter (rowMatches a u sid cfg)))]; exact hsorted)).2.2
            have hts := hcross r hr q hq
            rw [← hre, ← hqe]
            exact hts
          · intro hcontr
            exact Option.noConfusion hcontr

/-- Witness for the amended C6 at a concrete store with one event. -/
theorem c6_witness :
    (getSession (emptyDB Nat) "a" "u" "s" none = none ↔
      alookup (emptyDB Nat).sessions ("a", "u", "s") = none) ∧
    List.Pairwise (fun x y => x.timestamp ≤ y.timestamp)
      (⟨"a", "u", "s", [], [evNoDelta], 5⟩ : Session Nat).events ∧
    (⟨"a", "u", "s", [], [evNoDelta], 5⟩ : Session Nat).events.length = 1 ∧
    (∃ rest : List (Event Nat),
      List.Perm ((dbWithEvent.events.filter (rowMatches "a" "u" "s" none)).map
        toEvent) ([evNoDelta] ++ rest) ∧
      (∀ ev ∈ [evNoDelta], ∀ omitted ∈ rest, omitted.timestamp ≤ ev.timestamp) ∧
      (cfgLimit none = none → rest = [])) := by
  have h := c6_get_session (V := Nat)
  have hsome : getSession dbWithEvent "a" "u" "s" none =
      some ⟨"a", "u", "s", [], [evNoDelta], 5⟩ := by decide
  have h2 := h.2 dbWithEvent "a" "u" "s" none _ hsome
  exact ⟨h.1 (emptyDB Nat) "a" "u" "s" none, h2.2.1,
    (h2.2.2.2.2.1).trans (by decide), h2.2.2.2.2.2⟩

/-- Witness for C8 at a concrete three-scope delta and a concrete
append. -/
theorem c8_witness :
    (extractStateDelta [("app:x", (1 : Nat)), ("user:y", 2), ("z", 3)]).app.length +
      (extractStateDelta [("app:x", (1 : Nat)), ("user:y", 2), ("z", 3)]).user.length +
      (extractStateDelta [("app:x", (1 : Nat)), ("user:y", 2), ("z", 3)]).session.length
      = 3 ∧
    (alookup (appendEvent dbCreated 6 snapA evCounter).2.sessions
      (snapA.app_name, snapA.user_id, snapA.id)).map SessRow.state =
      some [("counter", 1)] := by
  constructor
  · exact ((c8_delta_routing (V := Nat)).1
      [("app:x", 1), ("user:y", 2), ("z", 3)]).trans (by decide)
  · exact (((c8_delta_routing (V := Nat)).2.2.2.2.2 dbCreated 6 snapA evCounter
      ⟨[], 5, 5⟩ ⟨[], 5⟩ ⟨[], 5⟩ rfl (by decide) (by decide) (by decide)
      (by decide)).2.2.1).trans (by decide)

end AdkStore
